import Mathlib

/-!
Verification of `fabric/decorators.py` (favoretti/fabric): a shallow
embedding of the five decorators `hosts`, `roles`, `runs_once`,
`ensure_order` and `with_settings`, together with proofs of the
specification's claims about them.

Modelling conventions:
* Python attribute dictionaries (`f.__dict__`) become association lists
  `List (String × AttrVal)` with `getAttr` / `setAttr` / `delAttr`.
* A Python function object becomes a structure `Fn` holding its object
  identity (`id`), its attribute dictionary (`attrs`) and its calling
  behaviour (`call`).  A call threads the process-wide configuration
  environment (`Env`) and may raise (`Except ε`).
* Creating a new function object (e.g. the `inner_decorator` closure
  built by `hosts`) allocates a fresh identity; the allocation is made
  explicit as a `newId : Nat` parameter of the embedding, standing for
  the identity of the newly created object (distinct from every
  pre-existing object's identity in any real execution).
* `runs_once` keeps its cache in an attribute `return_value` of the
  wrapper, existence-checked with `hasattr`; the cache is modelled as an
  explicit `Option β` threaded through the calls.
-/

namespace Fabric

/-- Elements of the argument tuple received by `hosts(*host_list)` /
`roles(*role_list)`: each positional argument is either a string or an
iterable of strings (the only shapes the spec admits). -/
inductive HVal where
  | str : String → HVal
  | iter : List String → HVal
deriving DecidableEq

/-- Values stored in a function's attribute dictionary or in the
process-wide configuration environment. -/
inductive AttrVal where
  | bool : Bool → AttrVal
  | str : String → AttrVal
  | int : Int → AttrVal
  | hlist : List HVal → AttrVal
  | funcRef : Nat → AttrVal
deriving DecidableEq

/-- An attribute dictionary (`f.__dict__`), as an association list. -/
abbrev Attrs := List (String × AttrVal)

/-- The process-wide configuration environment mutated by `settings`. -/
abbrev Env := List (String × AttrVal)

/-- Attribute lookup: `getattr(obj, key, None)` / `env.get(key)`. -/
def getAttr : Attrs → String → Option AttrVal
  | [], _ => none
  | (k, v) :: rest, key => if k = key then some v else getAttr rest key

/-- Attribute assignment: `obj.key = val` / `env[key] = val`. -/
def setAttr : Attrs → String → AttrVal → Attrs
  | [], key, val => [(key, val)]
  | (k, v) :: rest, key, val =>
    if k = key then (key, val) :: rest else (k, v) :: setAttr rest key val

/-- Attribute deletion: `del obj.key` / `del env[key]`. -/
def delAttr : Attrs → String → Attrs
  | [], _ => []
  | (k, v) :: rest, key =>
    if k = key then delAttr rest key else (k, v) :: delAttr rest key

/-- A Python function object: an object identity, an attribute
dictionary, and a calling behaviour that threads the configuration
environment and may raise. -/
structure Fn (α ε β : Type) where
  id : Nat
  attrs : Attrs
  call : α → Env → Except ε β × Env

/-! ## `hosts` and `roles`

```python
def hosts(*host_list):
    def attach_hosts(func):
        @wraps(func)
        def inner_decorator(*args, **kwargs):
            return func(*args, **kwargs)
        _hosts = host_list
        if len(_hosts) == 1 and not isinstance(_hosts[0], StringTypes):
            _hosts = _hosts[0]
        inner_decorator.hosts = list(_hosts)
        return inner_decorator
    return attach_hosts
```

`roles` is identical with `role_list` / `.roles`. -/

/-- The normalisation performed on the argument tuple: a single
positional argument that is not a string is flattened as the iterable
of entries (`_hosts = _hosts[0]`), then `list(_hosts)` is taken. -/
def flatten_args (args : List HVal) : List HVal :=
  match args with
  | [HVal.iter l] => l.map HVal.str
  | _ => args

/-- `attach_hosts` applied to `func`: builds the `inner_decorator`
wrapper (a new function object with identity `newId`), whose call
delegates to `func` with the same arguments; `@wraps(func)` copies
`func.__dict__` into the wrapper, and then `inner_decorator.hosts` is
set to the normalised list. -/
def attach_hosts (host_list : List HVal) (newId : Nat) (func : Fn α ε β) :
    Fn α ε β :=
  { id := newId
    attrs := setAttr func.attrs "hosts" (AttrVal.hlist (flatten_args host_list))
    call := fun a env => func.call a env }

/-- `attach_roles`, the decorator returned by `roles(*role_list)`:
identical to `attach_hosts` except for the attribute name. -/
def attach_roles (role_list : List HVal) (newId : Nat) (func : Fn α ε β) :
    Fn α ε β :=
  { id := newId
    attrs := setAttr func.attrs "roles" (AttrVal.hlist (flatten_args role_list))
    call := fun a env => func.call a env }

/-! ## `runs_once`

```python
def runs_once(func):
    @wraps(func)
    def decorated(*args, **kwargs):
        if not hasattr(decorated, 'return_value'):
            decorated.return_value = func(*args, **kwargs)
        return decorated.return_value
    return decorated
```

The cache attribute `return_value` is the only state; it is modelled as
an explicit `Option β` threaded through the calls, `none` standing for
`hasattr(decorated, 'return_value') == False`.  The wrapped function is
an effectful `α → σ → Except ε β × σ`: it consumes an argument and a
side-effect state, and either returns a value or raises; in either case
the side effects it performed persist. -/

/-- One call of the `decorated` wrapper: if the cache attribute exists,
return it without touching `func`; otherwise run `func`, and only on
normal return store the result in the cache (an exception propagates
with the cache still unset). -/
def runs_once_step (func : α → σ → Except ε β × σ)
    (cache : Option β) (a : α) (s : σ) : Except ε β × Option β × σ :=
  match cache with
  | some v => (Except.ok v, some v, s)
  | none =>
    let r := func a s
    match r.1 with
    | Except.ok v => (Except.ok v, some v, r.2)
    | Except.error e => (Except.error e, none, r.2)

/-- A sequence of calls of the `decorated` wrapper, returning the list
of per-call outcomes together with the final cache and side-effect
state. -/
def runs_once_calls (func : α → σ → Except ε β × σ) :
    List α → Option β → σ → List (Except ε β) × Option β × σ
  | [], c, s => ([], c, s)
  | a :: as, c, s =>
    let r1 := runs_once_step func c a s
    let rs := runs_once_calls func as r1.2.1 r1.2.2
    (r1.1 :: rs.1, rs.2.1, rs.2.2)

/-! ## `ensure_order`

```python
def ensure_order(sorted=False):
    def real_decorator(func):
        func._sorted = sorted
        func._ensure_order = True
        return func
    if type(sorted) == type(real_decorator):
        return real_decorator(sorted)
    real_decorator._ensure_order = True
    return real_decorator
```
-/

/-- The single argument of `ensure_order`: either the `sorted` boolean
(parameterized use) or a function (bare use, `@ensure_order`). -/
inductive EOArg (α ε β : Type) where
  | boolArg : Bool → EOArg α ε β
  | funcArg : Fn α ε β → EOArg α ε β

/-- `real_decorator`, with the captured `sorted` value made explicit:
mutates `func` in place, setting `func._sorted = sorted` and
`func._ensure_order = True`, and returns the same object. -/
def real_decorator (sortedVal : AttrVal) (func : Fn α ε β) : Fn α ε β :=
  { func with
    attrs := setAttr (setAttr func.attrs "_sorted" sortedVal)
      "_ensure_order" (AttrVal.bool true) }

/-- The decorator returned by the parameterized form: the
`real_decorator` closure, carrying its captured `sorted` argument and
its own attribute dictionary (on which `_ensure_order = True` was set
before returning). -/
structure EODecorator where
  sortedArg : Bool
  attrs : Attrs

/-- Applying the returned `real_decorator` closure to a function. -/
def EODecorator.apply (d : EODecorator) (func : Fn α ε β) : Fn α ε β :=
  real_decorator (AttrVal.bool d.sortedArg) func

/-- What `ensure_order` returns: either a function (bare use — the
argument, mutated, is returned directly) or the awaiting decorator
(parameterized use). -/
inductive EOResult (α ε β : Type) where
  | func : Fn α ε β → EOResult α ε β
  | deco : EODecorator → EOResult α ε β

/-- `ensure_order`: the dispatch `type(sorted) == type(real_decorator)`
is true exactly when the argument is a function, in which case
`real_decorator(sorted)` is returned at once — note that the captured
`sorted` is then the function itself, so `func._sorted` is set to the
function object.  Otherwise the `real_decorator` closure is returned,
after `real_decorator._ensure_order = True`. -/
def ensure_order (arg : EOArg α ε β) : EOResult α ε β :=
  match arg with
  | EOArg.funcArg f => EOResult.func (real_decorator (AttrVal.funcRef f.id) f)
  | EOArg.boolArg b =>
    EOResult.deco { sortedArg := b, attrs := [("_ensure_order", AttrVal.bool true)] }

/-- The attribute dictionary of whichever object `ensure_order`
returned. -/
def EOResult.attrsOf : EOResult α ε β → Attrs
  | EOResult.func g => g.attrs
  | EOResult.deco d => d.attrs

/-- The function obtained by the parameterized use
`ensure_order(sorted=b)` applied to `func` (the `EOResult.func` branch
is unreachable for a `boolArg`). -/
def ensure_order_param (b : Bool) (func : Fn α ε β) : Fn α ε β :=
  match ensure_order (α := α) (ε := ε) (β := β) (EOArg.boolArg b) with
  | EOResult.deco d => d.apply func
  | EOResult.func g => g

/-! ## `with_settings`

```python
def with_settings(**kw_settings):
    def outer(func):
        def inner(*args, **kwargs):
            with settings(**kw_settings):
                return func(*args, **kwargs)
        return inner
    return outer
```

`settings` itself lives in `fabric/context_managers.py`, which is not
part of this fragment; it is modelled from the spec below. -/

/-- The previous state of each overridden key, saved on entry. -/
def saveState (kw : List (String × AttrVal)) (env : Env) :
    List (String × Option AttrVal) :=
  kw.map (fun p => (p.1, getAttr env p.1))

/-- Applying the overrides to the environment, in order. -/
def applyOverrides : List (String × AttrVal) → Env → Env
  | [], env => env
  | (k, v) :: rest, env => applyOverrides rest (setAttr env k v)

/-- Restoring each overridden key to its saved previous state, in
order: a key that existed before gets its old value back, a key that
did not exist is deleted again. -/
def restoreSaved : List (String × Option AttrVal) → Env → Env
  | [], env => env
  | (k, some v) :: rest, env => restoreSaved rest (setAttr env k v)
  | (k, none) :: rest, env => restoreSaved rest (delAttr env k)

/-- Modelled from the spec: `fabric.context_managers.settings` (the
file `fabric/context_managers.py` is not part of this fragment).  Per
the spec, for the duration of the block "a set of named configuration
overrides (arbitrary key/value pairs) is applied to process-wide
execution configuration, then unconditionally reverted after the call
completes — including when the call raises": the previous state of the
overridden keys is saved, the overrides are applied, the body runs, and
on every exit path (normal result or raised exception) the overridden
keys are restored before the result or exception propagates. -/
def settings_run (kw : List (String × AttrVal))
    (body : Env → Except ε β × Env) (env : Env) : Except ε β × Env :=
  let res := body (applyOverrides kw env)
  (res.1, restoreSaved (saveState kw env) res.2)

/-- The `inner` wrapper built by `with_settings(**kw_settings)` applied
to `func`: a new function object (identity `newId`) with an EMPTY
attribute dictionary (no `@wraps` is used here), whose call runs
`func` inside `settings(**kw_settings)`. -/
def with_settings_deco (newId : Nat) (kw : List (String × AttrVal))
    (func : Fn α ε β) : Fn α ε β :=
  { id := newId
    attrs := []
    call := fun a env => settings_run kw (func.call a) env }

/-! ## Python truthiness (for the `runs_once` falsy-cache claim) -/

/-- A small universe of Python return values, enough to express
falsiness. -/
inductive PyVal where
  | vnone : PyVal
  | vbool : Bool → PyVal
  | vint : Int → PyVal
  | vstr : String → PyVal
deriving DecidableEq

/-- Python truthiness: `None`, `False`, `0` and `""` are falsy. -/
def falsy : PyVal → Bool
  | PyVal.vnone => true
  | PyVal.vbool b => !b
  | PyVal.vint n => n == 0
  | PyVal.vstr s => s.isEmpty

/-! ## Concrete fixtures used by witnesses and counterexamples -/

/-- A bare task function: identity 0, empty attribute dictionary,
trivial body. -/
def f0 : Fn Unit Unit Unit :=
  { id := 0, attrs := [], call := fun _ env => (Except.ok (), env) }

/-- A task function already carrying inner-decorator metadata. -/
def fMeta : Fn Unit Unit Unit :=
  { id := 4
    attrs := [("_ensure_order", AttrVal.bool true),
              ("hosts", AttrVal.hlist [HVal.str "h1"])]
    call := fun _ env => (Except.ok (), env) }

/-- A task function used for the `with_settings` witness: reads nothing,
writes nothing, returns normally. -/
def fW : Fn Unit Unit Unit :=
  { id := 7, attrs := [], call := fun _ env => (Except.ok (), env) }

/-- A side-effecting function: increments a counter and returns its old
value. -/
def counterFn : Unit → Nat → Except Unit Nat × Nat :=
  fun _ n => (Except.ok n, n + 1)

/-- A function that raises on its first run (counter 0) and succeeds
afterwards; every run increments the counter. -/
def flakyFn : Unit → Nat → Except String Nat × Nat :=
  fun _ n => if n = 0 then (Except.error "boom", n + 1) else (Except.ok n, n + 1)

/-- A side-effecting function returning the falsy value `None`. -/
def noneFn : Unit → Nat → Except Unit PyVal × Nat :=
  fun _ n => (Except.ok PyVal.vnone, n + 1)

/-- Concrete overrides and environment for the `with_settings`
witness. -/
def kw1 : List (String × AttrVal) := [("warn_only", AttrVal.bool true)]

def env1 : Env := [("warn_only", AttrVal.bool false), ("user", AttrVal.str "root")]

/-! ## Lemmas about attribute dictionaries -/

theorem getAttr_setAttr_self (e : Attrs) (k : String) (v : AttrVal) :
    getAttr (setAttr e k v) k = some v := by
  induction e with
  | nil => simp [setAttr, getAttr]
  | cons p rest ih =>
    obtain ⟨k', v'⟩ := p
    by_cases h : k' = k
    · simp [setAttr, getAttr, h]
    · simp [setAttr, getAttr, h, ih]

theorem getAttr_setAttr_ne (e : Attrs) {k' k : String} (v : AttrVal)
    (h : k' ≠ k) : getAttr (setAttr e k' v) k = getAttr e k := by
  induction e with
  | nil => simp [setAttr, getAttr, h]
  | cons p rest ih =>
    obtain ⟨k1, v1⟩ := p
    by_cases h1 : k1 = k'
    · subst h1
      simp [setAttr, getAttr, h]
    · simp only [setAttr, if_neg h1]
      by_cases h2 : k1 = k
      · simp [getAttr, h2]
      · simp [getAttr, h2, ih]

theorem getAttr_delAttr_self (e : Attrs) (k : String) :
    getAttr (delAttr e k) k = none := by
  induction e with
  | nil => simp [delAttr, getAttr]
  | cons p rest ih =>
    obtain ⟨k1, v1⟩ := p
    by_cases h1 : k1 = k
    · simp [delAttr, h1, ih]
    · simp [delAttr, getAttr, h1, ih]

theorem getAttr_delAttr_ne (e : Attrs) {k' k : String} (h : k' ≠ k) :
    getAttr (delAttr e k') k = getAttr e k := by
  induction e with
  | nil => simp [delAttr]
  | cons p rest ih =>
    obtain ⟨k1, v1⟩ := p
    by_cases h1 : k1 = k'
    · subst h1
      simp [delAttr, getAttr, h, ih]
    · by_cases h2 : k1 = k
      · simp [delAttr, getAttr, h1, h2, Ne.symm h]
      · simp [delAttr, getAttr, h1, h2, ih]

/-! ## Lemmas about `applyOverrides` / `restoreSaved` -/

theorem getAttr_applyOverrides_not_mem (kw : List (String × AttrVal)) :
    ∀ (env : Env) (k : String), k ∉ kw.map Prod.fst →
      getAttr (applyOverrides kw env) k = getAttr env k := by
  induction kw with
  | nil => intro env k _; rfl
  | cons p rest ih =>
    intro env k h
    obtain ⟨k1, v1⟩ := p
    simp only [List.map_cons, List.mem_cons, not_or] at h
    rw [show applyOverrides ((k1, v1) :: rest) env
        = applyOverrides rest (setAttr env k1 v1) from rfl,
      ih _ _ h.2, getAttr_setAttr_ne _ _ (fun hh => h.1 hh.symm)]

theorem getAttr_applyOverrides_mem (kw : List (String × AttrVal)) :
    ∀ (env : Env) (k : String) (v : AttrVal),
      (kw.map Prod.fst).Nodup → (k, v) ∈ kw →
      getAttr (applyOverrides kw env) k = some v := by
  induction kw with
  | nil => intro env k v _ hm; cases hm
  | cons p rest ih =>
    intro env k v hnd hm
    obtain ⟨k1, v1⟩ := p
    simp only [List.map_cons, List.nodup_cons] at hnd
    rcases List.mem_cons.mp hm with heq | hmem
    · cases heq
      rw [show applyOverrides ((k, v) :: rest) env
          = applyOverrides rest (setAttr env k v) from rfl,
        getAttr_applyOverrides_not_mem rest _ _ hnd.1,
        getAttr_setAttr_self]
    · exact ih _ _ _ hnd.2 hmem

theorem getAttr_restoreSaved_not_mem (saved : List (String × Option AttrVal)) :
    ∀ (env : Env) (k : String), k ∉ saved.map Prod.fst →
      getAttr (restoreSaved saved env) k = getAttr env k := by
  induction saved with
  | nil => intro env k _; rfl
  | cons p rest ih =>
    intro env k h
    obtain ⟨k1, ov⟩ := p
    simp only [List.map_cons, List.mem_cons, not_or] at h
    cases ov with
    | some v =>
      rw [show restoreSaved ((k1, some v) :: rest) env
          = restoreSaved rest (setAttr env k1 v) from rfl,
        ih _ _ h.2, getAttr_setAttr_ne _ _ (fun hh => h.1 hh.symm)]
    | none =>
      rw [show restoreSaved ((k1, none) :: rest) env
          = restoreSaved rest (delAttr env k1) from rfl,
        ih _ _ h.2, getAttr_delAttr_ne _ (fun hh => h.1 hh.symm)]

theorem getAttr_restoreSaved_mem (saved : List (String × Option AttrVal)) :
    ∀ (env : Env) (k : String) (ov : Option AttrVal),
      (saved.map Prod.fst).Nodup → (k, ov) ∈ saved →
      getAttr (restoreSaved saved env) k = ov := by
  induction saved with
  | nil => intro env k ov _ hm; cases hm
  | cons p rest ih =>
    intro env k ov hnd hm
    obtain ⟨k1, ov1⟩ := p
    simp only [List.map_cons, List.nodup_cons] at hnd
    rcases List.mem_cons.mp hm with heq | hmem
    · cases heq
      cases ov with
      | some v =>
        rw [show restoreSaved ((k, some v) :: rest) env
            = restoreSaved rest (setAttr env k v) from rfl,
          getAttr_restoreSaved_not_mem rest _ _ hnd.1,
          getAttr_setAttr_self]
      | none =>
        rw [show restoreSaved ((k, none) :: rest) env
            = restoreSaved rest (delAttr env k) from rfl,
          getAttr_restoreSaved_not_mem rest _ _ hnd.1,
          getAttr_delAttr_self]
    · cases ov1 with
      | some v1 =>
        rw [show restoreSaved ((k1, some v1) :: rest) env
            = restoreSaved rest (setAttr env k1 v1) from rfl]
        exact ih _ _ _ hnd.2 hmem
      | none =>
        rw [show restoreSaved ((k1, none) :: rest) env
            = restoreSaved rest (delAttr env k1) from rfl]
        exact ih _ _ _ hnd.2 hmem

theorem saveState_keys (kw : List (String × AttrVal)) (env : Env) :
    (saveState kw env).map Prod.fst = kw.map Prod.fst := by
  simp [saveState, List.map_map, Function.comp]

theorem mem_saveState (kw : List (String × AttrVal)) (env : Env) (k : String)
    (h : k ∈ kw.map Prod.fst) : (k, getAttr env k) ∈ saveState kw env := by
  simp only [List.mem_map] at h
  obtain ⟨p, hp, rfl⟩ := h
  simp only [saveState, List.mem_map]
  exact ⟨p, hp, rfl⟩

/-! ## Lemmas about `runs_once` and `flatten_args` -/

theorem runs_once_calls_cached (func : α → σ → Except ε β × σ) (v : β) :
    ∀ (as : List α) (s : σ),
      runs_once_calls func as (some v)
        s = (as.map (fun _ => Except.ok v), some v, s) := by
  intro as
  induction as with
  | nil => intro s; rfl
  | cons a rest ih =>
    intro s
    simp [runs_once_calls, runs_once_step, ih]

theorem flatten_args_map_str (L : List String) :
    flatten_args (L.map HVal.str) = L.map HVal.str := by
  cases L with
  | nil => rfl
  | cons s rest => rfl

/-! ## Claims -/

/-- Claim C1.  The claim states that bare application (`@ensure_order`)
yields `g._ensure_order == True` and `g._sorted == False`.  The code
instead executes `real_decorator(sorted)` with `sorted` bound to the
decorated function itself, so `func._sorted = sorted` sets `_sorted` to
the function object, not to `False`: evaluated at the concrete task
function `f0`, `_ensure_order` is `True` but `_sorted` is a reference
to the function (a truthy value, not equal to `False`). -/
theorem ensure_order_bare_sets_sorted_to_function :
    getAttr (EOResult.attrsOf (ensure_order (EOArg.funcArg f0))) "_ensure_order"
        = some (AttrVal.bool true)
    ∧ getAttr (EOResult.attrsOf (ensure_order (EOArg.funcArg f0))) "_sorted"
        = some (AttrVal.funcRef 0)
    ∧ AttrVal.funcRef 0 ≠ AttrVal.bool false := by
  refine ⟨by decide, by decide, by decide⟩

/-- Claim C2: for a function wrapped by `runs_once`, only the first
invocation executes the body; every subsequent invocation, whatever its
arguments, returns the first call's cached result, and the side-effect
state never changes again (side effects happen exactly once). -/
theorem runs_once_first_call_caches
    (func : α → σ → Except ε β × σ) (a0 : α) (rest : List α)
    (s : σ) (v : β) (s1 : σ) (h : func a0 s = (Except.ok v, s1)) :
    runs_once_calls func (a0 :: rest) none s
      = (Except.ok v :: rest.map (fun _ => Except.ok v), some v, s1) := by
  simp [runs_once_calls, runs_once_step, h, runs_once_calls_cached]

/-- Witness for C2: a counter-incrementing function run twice — the
second call returns the first call's value and the counter stays at 1. -/
theorem runs_once_first_call_caches_witness :
    counterFn () 0 = (Except.ok 0, 1)
    ∧ runs_once_calls counterFn [(), ()] none 0
        = ([Except.ok 0, Except.ok 0], some 0, 1) :=
  ⟨rfl, runs_once_first_call_caches counterFn () [()] 0 0 1 rfl⟩

/-- Claim C3: if the wrapped function raises, the cache slot stays
unset, the exception propagates, and the next invocation re-executes
the body (here: the second call's actual run succeeds and its result
and side effects are observed). -/
theorem runs_once_exception_not_cached
    (func : α → σ → Except ε β × σ) (a0 a1 : α) (s s1 s2 : σ)
    (e : ε) (v1 : β) (h0 : func a0 s = (Except.error e, s1))
    (h1 : func a1 s1 = (Except.ok v1, s2)) :
    runs_once_step func none a0 s = (Except.error e, none, s1)
    ∧ runs_once_calls func [a0, a1] none s
        = ([Except.error e, Except.ok v1], some v1, s2) := by
  constructor
  · simp [runs_once_step, h0]
  · simp [runs_once_calls, runs_once_step, h0, h1]

/-- Witness for C3: a function that raises on its first run and
succeeds on its second; the second call through the wrapper re-executes
it. -/
theorem runs_once_exception_not_cached_witness :
    flakyFn () 0 = (Except.error "boom", 1)
    ∧ flakyFn () 1 = (Except.ok 1, 2)
    ∧ (runs_once_step flakyFn none () 0 = (Except.error "boom", none, 1)
       ∧ runs_once_calls flakyFn [(), ()] none 0
           = ([Except.error "boom", Except.ok 1], some 1, 2)) :=
  ⟨rfl, rfl, runs_once_exception_not_cached flakyFn () () 0 1 2 "boom" 1 rfl rfl⟩

/-- Claim C4: each call of a `with_settings(**kw)`-wrapped function
applies the overrides to the process-wide configuration before running
the body (the body sees every override), passes the body's outcome
through (normal value and raised exception alike), and on every exit
path restores each overridden key to its prior state. -/
theorem with_settings_overrides_and_restores
    (kw : List (String × AttrVal)) (f : Fn α ε β) (nid : Nat)
    (a : α) (env : Env) (hnd : (kw.map Prod.fst).Nodup) :
    ((with_settings_deco nid kw f).call a env).1
        = (f.call a (applyOverrides kw env)).1
    ∧ (∀ k v, (k, v) ∈ kw → getAttr (applyOverrides kw env) k = some v)
    ∧ (∀ k, k ∈ kw.map Prod.fst →
        getAttr ((with_settings_deco nid kw f).call a env).2 k = getAttr env k)
    ∧ (∀ v e3, f.call a (applyOverrides kw env) = (Except.ok v, e3) →
        ((with_settings_deco nid kw f).call a env).1 = Except.ok v)
    ∧ (∀ err e3, f.call a (applyOverrides kw env) = (Except.error err, e3) →
        ((with_settings_deco nid kw f).call a env).1 = Except.error err) := by
  refine ⟨rfl, ?_, ?_, ?_, ?_⟩
  · intro k v hm
    exact getAttr_applyOverrides_mem kw env k v hnd hm
  · intro k hk
    show getAttr (restoreSaved (saveState kw env)
        (f.call a (applyOverrides kw env)).2) k = getAttr env k
    have hnd2 : ((saveState kw env).map Prod.fst).Nodup := by
      rw [saveState_keys]; exact hnd
    exact getAttr_restoreSaved_mem (saveState kw env) _ k (getAttr env k)
      hnd2 (mem_saveState kw env k hk)
  · intro v e3 hcall
    show (f.call a (applyOverrides kw env)).1 = Except.ok v
    rw [hcall]
  · intro err e3 hcall
    show (f.call a (applyOverrides kw env)).1 = Except.error err
    rw [hcall]

/-- Witness for C4: one override `warn_only = True` over an environment
where `warn_only = False`; the wrapped call sees the override and the
environment after the call has `warn_only = False` again. -/
theorem with_settings_overrides_and_restores_witness :
    (kw1.map Prod.fst).Nodup
    ∧ (∀ k, k ∈ kw1.map Prod.fst →
        getAttr ((with_settings_deco 9 kw1 fW).call () env1).2 k = getAttr env1 k) :=
  ⟨by decide,
   (with_settings_overrides_and_restores kw1 fW 9 () env1 (by decide)).2.2.1⟩

/-- Claim C5: for a non-empty list of strings `L`, the function
decorated by `hosts(*L)` carries a `hosts` attribute equal to
`list(L)` (order and multiplicity preserved); likewise `roles(*L)`
yields a `roles` attribute equal to `list(L)`. -/
theorem hosts_roles_attach_list
    (L : List String) (f g : Fn α ε β) (n1 n2 : Nat) (hL : L ≠ []) :
    getAttr (attach_hosts (L.map HVal.str) n1 f).attrs "hosts"
      = some (AttrVal.hlist (L.map HVal.str))
    ∧ getAttr (attach_roles (L.map HVal.str) n2 g).attrs "roles"
      = some (AttrVal.hlist (L.map HVal.str)) := by
  constructor
  · show getAttr (setAttr f.attrs "hosts"
        (AttrVal.hlist (flatten_args (L.map HVal.str)))) "hosts"
      = some (AttrVal.hlist (L.map HVal.str))
    rw [flatten_args_map_str, getAttr_setAttr_self]
  · show getAttr (setAttr g.attrs "roles"
        (AttrVal.hlist (flatten_args (L.map HVal.str)))) "roles"
      = some (AttrVal.hlist (L.map HVal.str))
    rw [flatten_args_map_str, getAttr_setAttr_self]

/-- Witness for C5 at `L = ["h1", "h2"]`. -/
theorem hosts_roles_attach_list_witness :
    (["h1", "h2"] : List String) ≠ []
    ∧ (getAttr (attach_hosts (["h1", "h2"].map HVal.str) 1 f0).attrs "hosts"
        = some (AttrVal.hlist (["h1", "h2"].map HVal.str))
      ∧ getAttr (attach_roles (["h1", "h2"].map HVal.str) 2 f0).attrs "roles"
        = some (AttrVal.hlist (["h1", "h2"].map HVal.str))) :=
  ⟨by decide, hosts_roles_attach_list ["h1", "h2"] f0 f0 1 2 (by decide)⟩

/-- Claim C6: the single-iterable form `hosts(L)` attaches exactly the
same `hosts` metadata as the variadic form `hosts(*L)`; moreover a
single string argument is kept as one entry and any two-or-more
argument tuple is taken entrywise. -/
theorem hosts_single_iterable_same
    (L : List String) (s : String) (args : List HVal)
    (f : Fn α ε β) (nid : Nat) (hL : L ≠ []) (hargs : 2 ≤ args.length) :
    (attach_hosts [HVal.iter L] nid f).attrs
        = (attach_hosts (L.map HVal.str) nid f).attrs
    ∧ flatten_args [HVal.str s] = [HVal.str s]
    ∧ flatten_args args = args := by
  refine ⟨?_, rfl, ?_⟩
  · show setAttr f.attrs "hosts" (AttrVal.hlist (flatten_args [HVal.iter L]))
        = setAttr f.attrs "hosts" (AttrVal.hlist (flatten_args (L.map HVal.str)))
    rw [flatten_args_map_str]
    rfl
  · match args, hargs with
    | a :: b :: rest, _ => cases a <;> rfl

/-- Witness for C6 at `L = ["a", "b"]`, `s = "x"`,
`args = [str "p", str "q"]`. -/
theorem hosts_single_iterable_same_witness :
    (["a", "b"] : List String) ≠ []
    ∧ 2 ≤ ([HVal.str "p", HVal.str "q"] : List HVal).length
    ∧ ((attach_hosts [HVal.iter ["a", "b"]] 3 f0).attrs
          = (attach_hosts (["a", "b"].map HVal.str) 3 f0).attrs
       ∧ flatten_args [HVal.str "x"] = [HVal.str "x"]
       ∧ flatten_args [HVal.str "p", HVal.str "q"]
          = [HVal.str "p", HVal.str "q"]) :=
  ⟨by decide, by decide,
   hosts_single_iterable_same ["a", "b"] "x" [HVal.str "p", HVal.str "q"]
     f0 3 (by decide) (by decide)⟩

/-- Counterexample to claim C7 as stated: `hosts` does NOT return the
original function side-effected with the attribute — it returns the
newly created `inner_decorator` wrapper, a distinct function object
(`def inner_decorator` allocates a new object; `newId = 1` is its fresh
identity, distinct from `f0.id = 0`), and the original function `f0`
itself never receives a `hosts` attribute. -/
theorem hosts_returns_new_object :
    (attach_hosts [HVal.str "h1"] 1 f0).id ≠ f0.id
    ∧ getAttr f0.attrs "hosts" = none := by
  refine ⟨by decide, by decide⟩

/-- Claim C7, amended: `hosts` (and `roles`) returns a new wrapper
function carrying the attribute — not the original function object —
and the wrapper is unchanged in calling semantics: calling it invokes
the original body with the same arguments and returns the original
body's value. -/
theorem hosts_roles_wrapper_preserves_calls
    (hl rl : List HVal) (n1 n2 : Nat) (f : Fn α ε β) :
    (attach_hosts hl n1 f).call = f.call
    ∧ getAttr (attach_hosts hl n1 f).attrs "hosts"
        = some (AttrVal.hlist (flatten_args hl))
    ∧ (attach_hosts hl n1 f).id = n1
    ∧ (attach_roles rl n2 f).call = f.call
    ∧ getAttr (attach_roles rl n2 f).attrs "roles"
        = some (AttrVal.hlist (flatten_args rl))
    ∧ (attach_roles rl n2 f).id = n2 := by
  refine ⟨rfl, ?_, rfl, rfl, ?_, rfl⟩
  · exact getAttr_setAttr_self _ _ _
  · exact getAttr_setAttr_self _ _ _

/-- Claim C8: the `runs_once` cache is existence-checked, not
value-checked, so a falsy first result (such as `None`) is still
cached: the second call returns that falsy value without re-executing
the body (the side-effect state stays put). -/
theorem runs_once_caches_falsy_values
    (func : α → σ → Except ε PyVal × σ) (a0 a1 : α) (s s1 : σ) (v : PyVal)
    (h : func a0 s = (Except.ok v, s1)) (hf : falsy v = true) :
    runs_once_calls func [a0, a1] none s
      = ([Except.ok v, Except.ok v], some v, s1) := by
  simp [runs_once_calls, runs_once_step, h]

/-- Witness for C8: a function returning the falsy value `None`; the
second call returns `None` again and the counter stays at 1. -/
theorem runs_once_caches_falsy_values_witness :
    noneFn () 0 = (Except.ok PyVal.vnone, 1)
    ∧ falsy PyVal.vnone = true
    ∧ runs_once_calls noneFn [(), ()] none 0
        = ([Except.ok PyVal.vnone, Except.ok PyVal.vnone], some PyVal.vnone, 1) :=
  ⟨rfl, rfl, runs_once_caches_falsy_values noneFn () () 0 1 PyVal.vnone rfl rfl⟩

/-- Claim C9: `ensure_order(sorted=True)` applied to `f` yields a `g`
with `g._ensure_order == True` and `g._sorted == True`, and `g` is `f`
itself (same object identity, calling behaviour unchanged). -/
theorem ensure_order_param_true (f : Fn α ε β) :
    (ensure_order_param true f).id = f.id
    ∧ (ensure_order_param true f).call = f.call
    ∧ getAttr (ensure_order_param true f).attrs "_ensure_order"
        = some (AttrVal.bool true)
    ∧ getAttr (ensure_order_param true f).attrs "_sorted"
        = some (AttrVal.bool true) := by
  refine ⟨rfl, rfl, ?_, ?_⟩
  · exact getAttr_setAttr_self _ _ _
  · show getAttr (setAttr (setAttr f.attrs "_sorted" (AttrVal.bool true))
        "_ensure_order" (AttrVal.bool true)) "_sorted"
      = some (AttrVal.bool true)
    rw [getAttr_setAttr_ne _ _ (by decide), getAttr_setAttr_self]

/-- Claim C10: metadata propagation under stacking is asymmetric — the
`hosts` / `roles` wrappers copy the wrapped function's attribute
dictionary (`functools.wraps` updates the wrapper's `__dict__`), so any
attribute other than the one being attached survives; the `with_settings`
wrapper copies nothing, so the result has an empty attribute dictionary
and every lookup on it (hosts, roles, `_ensure_order`, ...) fails. -/
theorem metadata_propagation_asymmetric
    (f : Fn α ε β) (hl rl : List HVal) (kw : List (String × AttrVal))
    (n1 n2 n3 : Nat) (k : String) (h1 : k ≠ "hosts") (h2 : k ≠ "roles") :
    getAttr (attach_hosts hl n1 f).attrs k = getAttr f.attrs k
    ∧ getAttr (attach_roles rl n2 f).attrs k = getAttr f.attrs k
    ∧ (with_settings_deco n3 kw f).attrs = []
    ∧ (∀ k2 : String, getAttr (with_settings_deco n3 kw f).attrs k2 = none) := by
  refine ⟨?_, ?_, rfl, fun k2 => rfl⟩
  · exact getAttr_setAttr_ne _ _ (Ne.symm h1)
  · exact getAttr_setAttr_ne _ _ (Ne.symm h2)

/-- Witness for C10 at a function carrying `_ensure_order` and `hosts`
metadata: `_ensure_order` survives the `hosts` wrapper but is lost by
the `with_settings` wrapper. -/
theorem metadata_propagation_asymmetric_witness :
    ("_ensure_order" ≠ "hosts" ∧ "_ensure_order" ≠ "roles")
    ∧ (getAttr (attach_hosts [HVal.str "h2"] 5 fMeta).attrs "_ensure_order"
        = getAttr fMeta.attrs "_ensure_order"
      ∧ getAttr (attach_roles [HVal.str "r1"] 6 fMeta).attrs "_ensure_order"
        = getAttr fMeta.attrs "_ensure_order"
      ∧ (with_settings_deco 8 kw1 fMeta).attrs = []
      ∧ (∀ k2 : String,
          getAttr (with_settings_deco 8 kw1 fMeta).attrs k2 = none)) :=
  ⟨⟨by decide, by decide⟩,
   metadata_propagation_asymmetric fMeta [HVal.str "h2"] [HVal.str "r1"]
     kw1 5 6 8 "_ensure_order" (by decide) (by decide)⟩

end Fabric
